import Mathlib

/-!
Verification development for the slack-codecks-bot repository.

The definitions below are a shallow embedding of the two core components:
the name-resolution cache (src/src/cache.js, class MappingCache) and the
message parsing engine (Slack Message Parser v5.3).  JavaScript strings are
modelled as Lean `String`; JavaScript `Map` objects are modelled as
insertion-ordered association lists `List (String × α)` (Map.get = first
lookup, Map.set = update-in-place-or-append, iteration = list order);
`null`/`undefined` returns are modelled with `Option`.
-/

namespace SlackCodecks

/-- Set of characters matched by the JavaScript regex class `\s` (also the
character set removed by `String.prototype.trim`). -/
def jsWs (c : Char) : Bool :=
  c = ' ' || c = '\t' || c = '\n' || c = '\r' ||
  c.val = 0xB || c.val = 0xC || c.val = 0xA0 || c.val = 0x1680 ||
  (0x2000 ≤ c.val && c.val ≤ 0x200A) ||
  c.val = 0x2028 || c.val = 0x2029 || c.val = 0x202F || c.val = 0x205F ||
  c.val = 0x3000 || c.val = 0xFEFF

/-- Characters on which the JavaScript `.` regex atom fails: line feed,
carriage return, line separator, paragraph separator. -/
def lineTerm (c : Char) : Bool :=
  c = '\n' || c = '\r' || c.val = 0x2028 || c.val = 0x2029

/-- Model of JavaScript `String.prototype.trim`. -/
def jsTrim (s : String) : String :=
  String.mk (((s.data.dropWhile jsWs).reverse.dropWhile jsWs).reverse)

/-- Model of JavaScript `String.prototype.toLowerCase` restricted to the
Basic Latin / Latin-1 / Polish letter repertoire this repository uses;
characters outside that repertoire are returned unchanged. -/
def jsToLower (c : Char) : Char :=
  if 0xC0 ≤ c.val && c.val ≤ 0xDE && c.val ≠ 0xD7 then Char.ofNat (c.toNat + 32)
  else if c.val = 0x104 then Char.ofNat 0x105  -- Ą→ą
  else if c.val = 0x106 then Char.ofNat 0x107  -- Ć→ć
  else if c.val = 0x118 then Char.ofNat 0x119  -- Ę→ę
  else if c.val = 0x141 then Char.ofNat 0x142  -- Ł→ł
  else if c.val = 0x143 then Char.ofNat 0x144  -- Ń→ń
  else if c.val = 0x15A then Char.ofNat 0x15B  -- Ś→ś
  else if c.val = 0x179 then Char.ofNat 0x17A  -- Ź→ź
  else if c.val = 0x17B then Char.ofNat 0x17C  -- Ż→ż
  else c.toLower

/-- Base letter of a precomposed Latin letter with a diacritic, restricted to
the Latin repertoire this repository uses.  Models Unicode NFD decomposition
followed by removal of the combining mark (the source does
`.normalize('NFD').replace(/[̀-ͯ]/g, '')`).  Note that ł/Ł do not
decompose under NFD, which is why the source replaces them separately. -/
def deAccent (c : Char) : Char :=
  if 0xE0 ≤ c.val && c.val ≤ 0xE5 then 'a'
  else if c.val = 0xE7 then 'c'
  else if 0xE8 ≤ c.val && c.val ≤ 0xEB then 'e'
  else if 0xEC ≤ c.val && c.val ≤ 0xEF then 'i'
  else if c.val = 0xF1 then 'n'
  else if (0xF2 ≤ c.val && c.val ≤ 0xF6) then 'o'
  else if 0xF9 ≤ c.val && c.val ≤ 0xFC then 'u'
  else if c.val = 0xFD || c.val = 0xFF then 'y'
  else if c.val = 0x101 || c.val = 0x103 || c.val = 0x105 then 'a'
  else if c.val = 0x107 || c.val = 0x10D then 'c'
  else if c.val = 0x113 || c.val = 0x115 || c.val = 0x119 then 'e'
  else if c.val = 0x12B then 'i'
  else if c.val = 0x144 then 'n'
  else if c.val = 0x14D then 'o'
  else if c.val = 0x15B || c.val = 0x161 then 's'
  else if c.val = 0x16B then 'u'
  else if c.val = 0x17A || c.val = 0x17C || c.val = 0x17E then 'z'
  else c

/-- Model of `.normalize('NFD').replace(/[̀-ͯ]/g, '')` on a single
character: a literal combining mark is removed, a precomposed Latin letter
loses its diacritic. -/
def stripMark (c : Char) : List Char :=
  if 0x300 ≤ c.val && c.val ≤ 0x36F then [] else [deAccent c]

/-- MappingCache.normalize: lowercase, NFD-strip diacritics, fold ł/Ł to l,
trim.  `if (!str) return ''` handles the falsy empty string. -/
def normalize (s : String) : String :=
  if s = "" then "" else
  jsTrim (String.mk
    (((s.data.map jsToLower).flatMap stripMark).map
      (fun c => if c.val = 0x142 || c.val = 0x141 then 'l' else c)))

/-- Contiguous-substring test on character lists. -/
def isSubstr (sub : List Char) : List Char → Bool
  | [] => sub.isEmpty
  | x :: xs => sub.isPrefixOf (x :: xs) || isSubstr sub xs

/-- Model of JavaScript `String.prototype.includes`: substring containment. -/
def strIncludes (s sub : String) : Bool :=
  isSubstr sub.data s.data

/-- Model of JavaScript `Map.prototype.get`: first binding of the key in
insertion order (keys are unique under `mapSet`). -/
def mapGet (m : List (String × α)) (k : String) : Option α :=
  match m.find? (fun p => p.1 == k) with
  | some p => some p.2
  | none => none

/-- Model of JavaScript `Map.prototype.set`: overwrite in place when the key
exists (keeping its insertion position), append otherwise. -/
def mapSet (m : List (String × α)) (k : String) (v : α) : List (String × α) :=
  if (m.find? (fun p => p.1 == k)).isSome then
    m.map (fun p => if p.1 == k then (k, v) else p)
  else m ++ [(k, v)]

/-- Deck cache entry `{ id, spaceId, spaceName }` built by loadDecks. -/
structure DeckInfo where
  id : String
  spaceId : Option String
  spaceName : Option String
deriving DecidableEq, Repr

/-- The mutable state of class MappingCache: the four lookup maps the claims
are about, plus the reverse name maps used while loading.  The `lastRefresh`
timestamp is not modelled; the `initialized` flag is the `ready` field. -/
structure MappingCache where
  spaces : List (String × String)
  decks : List (String × DeckInfo)
  users : List (String × String)
  spaceNames : List (String × String)
  deckNames : List (String × String)
  userNames : List (String × String)
  deckPaths : List (String × String)
  ready : Bool
deriving DecidableEq, Repr

/-- The empty cache built by the MappingCache constructor. -/
def emptyCache : MappingCache :=
  ⟨[], [], [], [], [], [], [], false⟩

/-- Registry record returned by codecksClient.listProjects(); absent string
fields are modelled as the (falsy) empty string. -/
structure Project where
  title : String
  name : String
  id : String
deriving DecidableEq, Repr

/-- The `project` field of a deck record: absent, an object `{id, name}`, or
a plain id string. -/
inductive ProjField where
  | missing : ProjField
  | obj (id name : String) : ProjField
  | str (s : String) : ProjField
deriving DecidableEq, Repr

/-- Registry record returned by codecksClient.listDecksWithSpaces(). -/
structure DeckData where
  title : String
  name : String
  id : String
  project : ProjField
  projectId : String
deriving DecidableEq, Repr

/-- Registry record returned by codecksClient.listUsers(). -/
structure User where
  nickname : String
  username : String
  name : String
  id : String
deriving DecidableEq, Repr

/-- MappingCache.loadSpaces after the registry fetch succeeded: clear
`spaces`/`spaceNames` and rebuild them from the fetched projects. -/
def loadSpaces (st : MappingCache) (projects : List Project) : MappingCache :=
  let step := fun (acc : List (String × String) × List (String × String)) (project : Project) =>
    let name := if project.title ≠ "" then project.title else project.name
    if name ≠ "" && project.id ≠ "" then
      (mapSet acc.1 (normalize name) project.id, mapSet acc.2 project.id name)
    else acc
  let r := projects.foldl step ([], [])
  { st with spaces := r.1, spaceNames := r.2 }

/-- One iteration of the loadDecks loop, threading the three deck maps. -/
def loadDeckStep (spaceNames : List (String × String))
    (acc : List (String × DeckInfo) × List (String × String) × List (String × String))
    (deck : DeckData) :
    List (String × DeckInfo) × List (String × String) × List (String × String) :=
  let (decks, deckNames, deckPaths) := acc
  let name := if deck.title ≠ "" then deck.title else deck.name
  if name ≠ "" && deck.id ≠ "" then
    let normalizedName := normalize name
    let pidSpace : Option String × Option String :=
      match deck.project with
      | ProjField.obj i n =>
        if i ≠ "" then
          (some i, if n ≠ "" then some n else mapGet spaceNames i)
        else (none, none)
      | ProjField.str s =>
        if s ≠ "" then (some s, mapGet spaceNames s)
        else if deck.projectId ≠ "" then
          (some deck.projectId, mapGet spaceNames deck.projectId)
        else (none, none)
      | ProjField.missing =>
        if deck.projectId ≠ "" then
          (some deck.projectId, mapGet spaceNames deck.projectId)
        else (none, none)
    let deckInfo : DeckInfo := ⟨deck.id, pidSpace.1, pidSpace.2⟩
    let decks2 :=
      if (mapGet decks normalizedName).isSome then decks
      else mapSet decks normalizedName deckInfo
    let deckNames2 := mapSet deckNames deck.id name
    let deckPaths2 :=
      match pidSpace.2 with
      | some spaceName =>
        if spaceName ≠ "" then
          mapSet deckPaths (normalize (spaceName ++ "/" ++ name)) deck.id
        else deckPaths
      | none => deckPaths
    (decks2, deckNames2, deckPaths2)
  else acc

/-- MappingCache.loadDecks after the registry fetch succeeded. -/
def loadDecks (st : MappingCache) (decksData : List DeckData) : MappingCache :=
  let r := decksData.foldl (loadDeckStep st.spaceNames) ([], [], [])
  { st with decks := r.1, deckNames := r.2.1, deckPaths := r.2.2 }

/-- MappingCache.loadUsers after the registry fetch succeeded. -/
def loadUsers (st : MappingCache) (usersData : List User) : MappingCache :=
  let step := fun (acc : List (String × String) × List (String × String)) (user : User) =>
    let name :=
      if user.nickname ≠ "" then user.nickname
      else if user.username ≠ "" then user.username
      else user.name
    if name ≠ "" && user.id ≠ "" then
      let users2 := mapSet acc.1 (normalize name) user.id
      let userNames2 := mapSet acc.2 user.id name
      let users3 :=
        if user.username ≠ "" && user.username ≠ name then
          mapSet users2 (normalize user.username) user.id
        else users2
      (users3, userNames2)
    else acc
  let r := usersData.foldl step ([], [])
  { st with users := r.1, userNames := r.2 }

/-- MappingCache.initialize (also MappingCache.refresh, which just delegates
to it).  Each registry fetch is modelled as `Option` data: `none` means the
awaited call threw.  The JavaScript method awaits each fetch before clearing
the corresponding maps and rebuilds them in place, so a throw aborts the
method at that point, leaving the maps already rebuilt so far in their new
state and the rest untouched.  Returns (success flag, resulting state). -/
def refreshCache (st : MappingCache)
    (projectsFetch : Option (List Project))
    (decksFetch : Option (List DeckData))
    (usersFetch : Option (List User)) : Bool × MappingCache :=
  match projectsFetch with
  | none => (false, st)
  | some projects =>
    let st1 := loadSpaces st projects
    match decksFetch with
    | none => (false, st1)
    | some decksData =>
      let st2 := loadDecks st1 decksData
      match usersFetch with
      | none => (false, st2)
      | some usersData =>
        let st3 := loadUsers st2 usersData
        (true, { st3 with ready := true })

/-- MappingCache.resolveAlias: scan the alias mapping entries in order and
return the full name of the first alias whose normalization equals the
input's normalization; otherwise return the input unchanged. -/
def resolveAlias (input : String) (aliasMapping : List (String × String)) : String :=
  if input = "" then input else
  match aliasMapping.find? (fun p => normalize p.1 == normalize input) with
  | some p => p.2
  | none => input

/-- MappingCache.resolveSpace. -/
def resolveSpace (c : MappingCache) (input : String)
    (aliasMapping : List (String × String)) : Option String :=
  if input = "" then none else
  let resolvedName := resolveAlias input aliasMapping
  match mapGet c.spaces (normalize resolvedName) with
  | some id => if id ≠ "" then some id else none
  | none => none

/-- Model of JavaScript `String.prototype.split` with a single-character
separator, on character lists. -/
def splitChAux (c : Char) : List Char → List (List Char)
  | [] => [[]]
  | x :: xs =>
    let r := splitChAux c xs
    if x = c then [] :: r
    else
      match r with
      | h :: t => (x :: h) :: t
      | [] => [[x]]

/-- String-level wrapper for `splitChAux`. -/
def splitCh (c : Char) (s : String) : List String :=
  (splitChAux c s.data).map String.mk

/-- MappingCache.resolveDeck.  `input` may be "deck" or "space/deck"; the
destructuring `[spacePart, deckPart] = resolvedPath.split('/')` takes the
first two components. -/
def resolveDeck (c : MappingCache) (input : String)
    (aliasMapping spaceAliasMapping : List (String × String)) : Option String :=
  if input = "" then none else
  let resolvedPath := resolveAlias input aliasMapping
  if resolvedPath.data.contains '/' then
    let parts := (splitCh '/' resolvedPath).map jsTrim
    let spacePart := parts.headD ""
    let deckPart := (parts.drop 1).headD ""
    let resolvedSpace := resolveAlias spacePart spaceAliasMapping
    let fullPath := normalize (resolvedSpace ++ "/" ++ deckPart)
    match mapGet c.deckPaths fullPath with
    | some deckId =>
      if deckId ≠ "" then some deckId
      else
        match mapGet c.decks (normalize deckPart) with
        | some deckInfo => some deckInfo.id
        | none => none
    | none =>
      match mapGet c.decks (normalize deckPart) with
      | some deckInfo => some deckInfo.id
      | none => none
  else
    match mapGet c.decks (normalize resolvedPath) with
    | some deckInfo => some deckInfo.id
    | none => none

/-- MappingCache.resolveUser: alias substitution, direct lookup, then the
substring-containment fuzzy fallback over the users map in insertion order.
Note the fuzzy loop returns the matching entry's id without a truthiness
check, while the direct hit is guarded by `if (userId)`. -/
def resolveUser (c : MappingCache) (input : String)
    (aliasMapping : List (String × String)) : Option String :=
  if input = "" then none else
  let resolvedName := resolveAlias input aliasMapping
  let normalized := normalize resolvedName
  let fuzzy :=
    match c.users.find? (fun p => strIncludes p.1 normalized || strIncludes normalized p.1) with
    | some p => some p.2
    | none => none
  match mapGet c.users normalized with
  | some id => if id ≠ "" then some id else fuzzy
  | none => fuzzy

/-! ## Message parser (Slack Message Parser v5.3) -/

/-- All characters are acceptable to the JavaScript `.` regex atom (no line
terminators present). -/
def noLineTerm (l : List Char) : Bool :=
  l.all (fun c => !(lineTerm c))

/-- Character class `[\p{L}\p{M}\s.'-]` minus `\s`, `.`, apostrophe and
hyphen: models the Unicode letter and mark categories over the Basic
Latin / Latin-1 / Latin Extended / combining-mark repertoire this repository
uses; characters outside that repertoire are not classified. -/
def isLetterOrMark (c : Char) : Bool :=
  (('a' ≤ c && c ≤ 'z') || ('A' ≤ c && c ≤ 'Z')) ||
  (0xC0 ≤ c.val && c.val ≤ 0x24F && c.val ≠ 0xD7 && c.val ≠ 0xF7) ||
  (0x300 ≤ c.val && c.val ≤ 0x36F)

/-- One character of the owner-header class `[\p{L}\p{M}\s.'-]`. -/
def ownerClassChar (c : Char) : Bool :=
  isLetterOrMark c || jsWs c || c = '.' || c.val = 39 || c = '-'

/-- The regex `^([\p{L}\p{M}\s.'-]+):?\s*$` applied to an already-trimmed
string: after removing at most one trailing colon, the remainder must be a
non-empty run of owner-class characters. -/
def ownerBodyTest (t : String) : Bool :=
  let body :=
    match t.data.reverse with
    | ':' :: rest => rest
    | r => r
  !body.isEmpty && body.all ownerClassChar

/-- isOwnerHeader from the block-based parser. -/
def isOwnerHeader (text : String) : Bool :=
  if text = "" || text.data.contains '[' || text.data.contains ']' then false
  else
    let t := jsTrim text
    if t = "" || t.length > 50 then false
    else ownerBodyTest t

/-- extractOwnerName: trim, strip the trailing colon run (the replace of
regex `:+\s*$` by the empty string), trim again. -/
def extractOwnerName (text : String) : String :=
  let t := jsTrim text
  let rev := t.data.reverse
  jsTrim (String.mk (rev.drop (rev.takeWhile (fun c => c = ':')).length).reverse)

/-- Helper for assigneeMatch: leftmost open parenthesis that still has at
least one character after it; returns (characters before it, characters
after it). -/
def firstValidOpen : List Char → Option (List Char × List Char)
  | [] => none
  | c :: rest =>
    if c = '(' && !rest.isEmpty then some ([], rest)
    else
      match firstValidOpen rest with
      | some (b, a) => some (c :: b, a)
      | none => none

/-- The regex `/\(([^)]+)\)\s*$/` (assigneeRegex): an inline `(Name)` suffix
at the end of a title.  Returns the raw captured name and the raw text
before the match; the caller trims both.  The match, when it exists, ends at
the last non-whitespace character, which must be a closing parenthesis; the
leftmost matching open parenthesis lies after every other closing
parenthesis, with a non-empty capture in between. -/
def assigneeMatch (s : String) : Option (String × String) :=
  match s.data.reverse.dropWhile jsWs with
  | ')' :: rest =>
    let spanRev := rest.takeWhile (fun c => c ≠ ')')
    let remainder := rest.drop spanRev.length
    match firstValidOpen spanRev.reverse with
    | some (before, cap) => some (String.mk cap, String.mk (remainder.reverse ++ before))
    | none => none
  | _ => none

/-- The regex `/^\[([xX\s]?)\]\s*(.*)$/` (checkboxRegex).  Returns
(checked, trimmed label) exactly as the parser consumes a match:
`cm[1].toLowerCase() === 'x'` and `cm[2].trim()`.  The `(.*)$` tail requires
that, after the whitespace run following the bracket, no line terminator
remains. -/
def checkboxMatch (s : String) : Option (Bool × String) :=
  match s.data with
  | c0 :: c1 :: rest1 =>
    if c0 = '[' then
      if c1 = ']' then
        if noLineTerm (rest1.dropWhile jsWs) then some (false, jsTrim (String.mk rest1))
        else none
      else
        match rest1 with
        | c2 :: rest2 =>
          if (c1 = 'x' || c1 = 'X' || jsWs c1) && c2 = ']' &&
             noLineTerm (rest2.dropWhile jsWs) then
            some (c1 = 'x' || c1 = 'X', jsTrim (String.mk rest2))
          else none
        | [] => none
    else none
  | _ => none

/-- Attempt of the regex `/\[Deck:\s*([^\]]+)\]/i` at the head of the list;
the returned capture is already trimmed as the parser does. -/
def deckTagAt (l : List Char) : Option String :=
  match l with
  | '[' :: d1 :: d2 :: d3 :: d4 :: ':' :: rest =>
    if (d1 = 'D' || d1 = 'd') && (d2 = 'E' || d2 = 'e') &&
       (d3 = 'C' || d3 = 'c') && (d4 = 'K' || d4 = 'k') then
      let content := rest.takeWhile (fun ch => ch ≠ ']')
      if content.isEmpty || content.length = rest.length then none
      else some (jsTrim (String.mk content))
    else none
  | _ => none

/-- Leftmost match of `/\[Deck:\s*([^\]]+)\]/i` over the whole string. -/
def deckTagMatch : List Char → Option String
  | [] => none
  | c :: rest =>
    match deckTagAt (c :: rest) with
    | some s => some s
    | none => deckTagMatch rest

/-- The normalized flat item both parsers feed to the task tree builder:
`{ text, indent, isList }` (the listStyle field is never consulted by
parseCreateSection and is not modelled). -/
structure Item where
  text : String
  indent : Int
  isList : Bool
deriving DecidableEq, Repr

/-- One task record produced by the parser. -/
structure ParsedTask where
  title : String
  assigneeName : Option String
  description : List String
  checkboxes : List (String × Bool)
  deckPath : Option String
deriving DecidableEq, Repr

/-- The task tree builder state: result list, current task, active owner
header, last list indent level. -/
structure BuildState where
  tasks : List ParsedTask
  currentTask : Option ParsedTask
  currentOwner : Option String
  lastIndent : Int
deriving DecidableEq, Repr

/-- Initial builder state for one create section. -/
def initState : BuildState :=
  ⟨[], none, none, -1⟩

/-- Shared body of the two builder loops for a list item at a given level:
the parseCreateSection item loop and the parseCreateBlockText line loop
duplicate this logic verbatim in the source. -/
def stepListCore (st : BuildState) (content : String) (level : Int) : BuildState :=
  if level = 0 then
    let ta :=
      match assigneeMatch content with
      | some (cap, pre) => (jsTrim pre, some (jsTrim cap))
      | none => (content, st.currentOwner)
    { tasks := st.tasks ++ st.currentTask.toList,
      currentTask := some ⟨ta.1, ta.2, [], [], none⟩,
      currentOwner := st.currentOwner, lastIndent := 0 }
  else if level = 1 then
    match st.currentTask with
    | some t =>
      let d0 := if 2 ≤ st.lastIndent then t.description ++ [""] else t.description
      match checkboxMatch content with
      | some (chk, lbl) =>
        let t2 := { t with description := d0, checkboxes := t.checkboxes ++ [(lbl, chk)] }
        { st with currentTask := some t2, lastIndent := 1 }
      | none =>
        let t2 := { t with description := d0 ++ [content] }
        { st with currentTask := some t2, lastIndent := 1 }
    | none => st
  else if 2 ≤ level then
    match st.currentTask with
    | some t =>
      match checkboxMatch content with
      | some (chk, lbl) =>
        let t2 := { t with checkboxes := t.checkboxes ++ [(lbl, chk)] }
        { st with currentTask := some t2, lastIndent := level }
      | none =>
        let t2 := { t with description := t.description ++ ["- " ++ content] }
        { st with currentTask := some t2, lastIndent := level }
    | none => st
  else st

/-- One iteration of the parseCreateSection loop over a flat item. -/
def stepItem (st : BuildState) (item : Item) : BuildState :=
  if !item.isList then
    if isOwnerHeader item.text then
      { tasks := st.tasks ++ st.currentTask.toList, currentTask := none,
        currentOwner := some (extractOwnerName item.text), lastIndent := -1 }
    else st
  else if item.text = "" then st
  else stepListCore st item.text item.indent

/-- A create section: the raw marker line plus the flat items after it. -/
structure CreateSection where
  createLine : String
  items : List Item
deriving DecidableEq, Repr

/-- parseCreateSection: deck tag from the marker line, then the builder fold
over the items, sealing the still-open current task at the end. -/
def parseCreateSection (sec : CreateSection) : List ParsedTask × Option String :=
  let fin := sec.items.foldl stepItem initState
  (fin.tasks ++ fin.currentTask.toList, deckTagMatch sec.createLine.data)

/-! ### Block-based path -/

/-- An inline content node of a rich_text_section; absent string fields are
modelled as the (falsy) empty string.  For emoji the hexadecimal code-point
parsing of a supplied el.unicode field is abstracted as the decoded
character. -/
inductive Inline where
  | text (s : String)
  | link (txt url : String)
  | emoji (name : String) (uni : Option Char)
  | user (userId : String)
  | channel (channelId : String)
  | other (txt : String)
deriving DecidableEq, Repr

/-- extractText over a list of inline nodes. -/
def extractText (elements : List Inline) : String :=
  String.join (elements.map fun el =>
    match el with
    | Inline.text s => s
    | Inline.link t u => if t ≠ "" then t else if u ≠ "" then u else ""
    | Inline.emoji n uni =>
      match uni with
      | some ch => String.mk [ch]
      | none => ":" ++ n ++ ":"
    | Inline.user uid => "<@" ++ uid ++ ">"
    | Inline.channel cid => "<#" ++ cid ++ ">"
    | Inline.other t => t)

/-- Bullet characters of textBulletRegex (block path): `- • ◦ * ‣`. -/
def textBulletChar (c : Char) : Bool :=
  c = '-' || c = '*' || c.val = 0x2022 || c.val = 0x25E6 || c.val = 0x2023

/-- Bullet characters of the fallback BULLET_CHARS set:
`• ◦ - * ‣ ● ○ ▪ ▸`. -/
def bulletChar (c : Char) : Bool :=
  c = '-' || c = '*' || c.val = 0x2022 || c.val = 0x25E6 || c.val = 0x2023 ||
  c.val = 0x25CF || c.val = 0x25CB || c.val = 0x25AA || c.val = 0x25B8

/-- Generic bullet-line regex `^(\s*)(<bullet>)\s+<tail>$`: maximal leading
whitespace run, one bullet character, at least one whitespace character,
then the raw tail, which may not contain a line terminator (and, when
`nonempty` models a `(.+)` tail, may not be empty).  Returns (leading
whitespace count, raw tail). -/
def bulletMatchWith (isB : Char → Bool) (nonempty : Bool) (line : String) :
    Option (Nat × String) :=
  let lead := line.data.takeWhile jsWs
  match line.data.drop lead.length with
  | b :: rest =>
    if isB b then
      let ws1 := rest.takeWhile jsWs
      if ws1.isEmpty then none
      else
        let content := rest.drop ws1.length
        if noLineTerm content && (!nonempty || !content.isEmpty) then
          some (lead.length, String.mk content)
        else none
    else none
  | [] => none

/-- textBulletRegex of the block path (content group is `(.+)`). -/
def textBulletMatch (line : String) : Option (Nat × String) :=
  bulletMatchWith textBulletChar true line

/-- bulletRegex of the text-fallback path (content group is `(.*)`). -/
def bulletMatch (line : String) : Option (Nat × String) :=
  bulletMatchWith bulletChar false line

/-- A rich_text block element: a plain section, a list with an explicit
indent (each list item being the inline nodes of its rich_text_section;
other list-item node kinds are skipped by the source and not modelled), or
any other element kind. -/
inductive RTElement where
  | plain (elements : List Inline)
  | list (indent : Nat) (style : String) (items : List (List Inline))
  | otherEl
deriving DecidableEq, Repr

/-- A top-level Slack message block. -/
inductive SlackBlock where
  | richText (elements : List RTElement)
  | otherBlock
deriving DecidableEq, Repr

/-- flattenRichTextBlock on the elements of one rich_text block. -/
def flattenRT (elements : List RTElement) : List Item :=
  elements.foldl (fun items el =>
    match el with
    | RTElement.plain inls =>
      let text := jsTrim (extractText inls)
      items ++ (splitCh '\n' text).filterMap (fun line =>
        let trimmed := jsTrim line
        if trimmed = "" then none
        else
          match textBulletMatch line with
          | some (spaces, raw) =>
            some ⟨jsTrim raw, if spaces ≤ 1 then 0 else if spaces ≤ 4 then 1 else 2, true⟩
          | none => some ⟨trimmed, -1, false⟩)
    | RTElement.list indent _style lis =>
      items ++ lis.map (fun li => ⟨jsTrim (extractText li), (indent : Int), true⟩)
    | RTElement.otherEl => items) []

/-- splitByCreate: one section per item whose text contains the creation
marker; items before the first marker are discarded. -/
def splitByCreate (items : List Item) : List CreateSection :=
  let fin := items.foldl (fun (acc : List CreateSection × Option CreateSection) item =>
    if strIncludes item.text "[Create]" then
      (acc.1 ++ acc.2.toList, some ⟨item.text, []⟩)
    else
      match acc.2 with
      | some cur => (acc.1, some ⟨cur.createLine, cur.items ++ [item]⟩)
      | none => acc) ([], none)
  fin.1 ++ fin.2.toList

/-- The parser result: the task list and the first truthy per-section deck
path (the source also returns an always-empty blocks field, not modelled). -/
structure ParseResult where
  tasks : List ParsedTask
  deckPath : Option String
deriving DecidableEq, Repr

/-- Deck-path accumulation `if (firstDeckPath === null && deckPath)
firstDeckPath = deckPath` (an empty-string deck path is falsy). -/
def pickFirstDeck (first : Option String) (dp : Option String) : Option String :=
  match first with
  | some s => some s
  | none =>
    match dp with
    | some s => if s ≠ "" then some s else none
    | none => none

/-- Accumulate one create section: stamp the section's deck path onto its
tasks and append them, updating the first-deck-path accumulator. -/
def accumSection (acc : List ParsedTask × Option String) (sec : CreateSection) :
    List ParsedTask × Option String :=
  let r := parseCreateSection sec
  (acc.1 ++ r.1.map (fun t => { t with deckPath := r.2 }), pickFirstDeck acc.2 r.2)

/-- Accumulate one top-level block (non rich_text blocks are skipped). -/
def accumBlock (acc : List ParsedTask × Option String) (b : SlackBlock) :
    List ParsedTask × Option String :=
  match b with
  | SlackBlock.otherBlock => acc
  | SlackBlock.richText els => (splitByCreate (flattenRT els)).foldl accumSection acc

/-- parseFromBlocks: flatten each rich_text block, split into create
sections, parse each, stamping the section deck path onto its tasks. -/
def parseFromBlocks (blocks : List SlackBlock) : ParseResult :=
  let fin := blocks.foldl accumBlock ([], none)
  ⟨fin.1, fin.2⟩

/-! ### Text-fallback path -/

/-- Model of JavaScript `Array.prototype.join('\n')`. -/
def joinNL : List String → String
  | [] => ""
  | [s] => s
  | s :: rest => s ++ "\n" ++ joinNL rest

/-- splitIntoCreateBlocks: group the message lines into blocks, each
starting at a line containing the creation marker; lines before the first
marker are discarded. -/
def splitIntoCreateBlocks (message : String) : List String :=
  let fin := (splitCh '\n' message).foldl
    (fun (acc : List String × List String × Bool) line =>
      if strIncludes line "[Create]" then
        (if !acc.2.1.isEmpty then acc.1 ++ [joinNL acc.2.1] else acc.1, [line], true)
      else if acc.2.2 then (acc.1, acc.2.1 ++ [line], true)
      else acc) ([], [], false)
  if !fin.2.1.isEmpty then fin.1 ++ [joinNL fin.2.1] else fin.1

/-- One iteration of the parseCreateBlockText line loop.  The level-0/1/2
handling is the verbatim duplicate of the parseCreateSection loop body
(stepListCore); a level computed as 2 here satisfies the core's `2 ≤ level`
branch, so the sharing is exact. -/
def textStep (st : BuildState) (line : String) : BuildState :=
  let trimmed := jsTrim line
  if trimmed = "" then st
  else
    match bulletMatch line with
    | none =>
      if ownerBodyTest trimmed && !trimmed.data.contains '[' then
        { tasks := st.tasks ++ st.currentTask.toList, currentTask := none,
          currentOwner := some (extractOwnerName trimmed), lastIndent := -1 }
      else st
    | some (indentN, rawContent) =>
      stepListCore st (jsTrim rawContent)
        (if indentN ≤ 1 then 0 else if indentN ≤ 4 then 1 else 2)

/-- parseCreateBlockText: deck tag over the whole block text, then the line
loop starting after the marker line. -/
def parseCreateBlockText (blockText : String) : List ParsedTask × Option String :=
  let fin := ((splitCh '\n' blockText).drop 1).foldl textStep initState
  (fin.tasks ++ fin.currentTask.toList, deckTagMatch blockText.data)

/-- Accumulate one text-fallback create block. -/
def accumTextBlock (acc : List ParsedTask × Option String) (block : String) :
    List ParsedTask × Option String :=
  let r := parseCreateBlockText block
  (acc.1 ++ r.1.map (fun t => { t with deckPath := r.2 }), pickFirstDeck acc.2 r.2)

/-- parseFromText: the degraded-mode parser over the plain message text. -/
def parseFromText (message : String) : ParseResult :=
  let fin := (splitIntoCreateBlocks message).foldl accumTextBlock ([], none)
  ⟨fin.1, fin.2⟩

/-- parseTaskMessage: no creation marker means no tasks; with structured
blocks available use the block path, else the text fallback. -/
def parseTaskMessage (text : String) (blocks : List SlackBlock) : ParseResult :=
  if !strIncludes text "[Create]" then ⟨[], none⟩
  else if !blocks.isEmpty then parseFromBlocks blocks
  else parseFromText text

/-! ### Card content builder -/

/-- One rendered checkbox line (with its leading newline). -/
def cbLine (cb : String × Bool) : String :=
  "\n- [" ++ (if cb.2 then "x" else " ") ++ "] " ++ cb.1

/-- buildCardContent: title, blank line, description lines, blank line,
checkbox lines (the checkbox loop `content += ...` is the fold). -/
def buildCardContent (task : ParsedTask) : String :=
  let c1 := task.title
  let c2 := if !task.description.isEmpty then c1 ++ "\n\n" ++ joinNL task.description else c1
  if !task.checkboxes.isEmpty then
    task.checkboxes.foldl (fun acc cb => acc ++ cbLine cb) (c2 ++ "\n")
  else c2

/-! ## Derived predicates and reference definitions used by the claims -/

/-- The four checkbox markers named by the specification (tested on the
character list). -/
def fourPrefixLit (s : String) : Bool :=
  "[ ]".data.isPrefixOf s.data || "[]".data.isPrefixOf s.data ||
  "[x]".data.isPrefixOf s.data || "[X]".data.isPrefixOf s.data

/-- Checkbox-marker shape actually accepted by checkboxRegex: an opening
bracket, an optional single x/X/whitespace character, a closing bracket. -/
def cbPrefixOk (s : String) : Bool :=
  match s.data with
  | c0 :: c1 :: rest1 =>
    if c0 = '[' then
      if c1 = ']' then true
      else
        match rest1 with
        | c2 :: _ => (c1 = 'x' || c1 = 'X' || jsWs c1) && c2 = ']'
        | [] => false
    else false
  | _ => false

/-- Checked state determined by the bracketed character. -/
def cbPrefixChecked (s : String) : Bool :=
  match s.data with
  | c0 :: c1 :: _ =>
    if c0 = '[' then
      if c1 = ']' then false else c1 = 'x' || c1 = 'X'
    else false
  | _ => false

/-- Description lines a body-level item contributes when it is not a
checkbox (one line) versus when it is (none). -/
def descContrib (s : String) : List String :=
  match checkboxMatch s with
  | some _ => []
  | none => [s]

/-- Checkbox entries a body-level item contributes. -/
def cbContrib (s : String) : List (String × Bool) :=
  match checkboxMatch s with
  | some (chk, lbl) => [(lbl, chk)]
  | none => []

/-- Title that the builder derives from a level-0 item content. -/
def titleOf (content : String) : String :=
  match assigneeMatch content with
  | some (_, pre) => jsTrim pre
  | none => content

/-- The derived title is non-empty after trimming. -/
def titleOk (content : String) : Bool :=
  decide (jsTrim (titleOf content) ≠ "")

/-- Every title-level item of the list yields a non-empty trimmed title. -/
def itemsTitlesOk (items : List Item) : Bool :=
  items.all (fun it => !it.isList || it.indent ≠ 0 || it.text = "" || titleOk it.text)

/-- Title-level condition over all create sections of the block path. -/
def blocksTitlesOk (blocks : List SlackBlock) : Bool :=
  blocks.all (fun b =>
    match b with
    | SlackBlock.richText els =>
      (splitByCreate (flattenRT els)).all (fun sec => itemsTitlesOk sec.items)
    | SlackBlock.otherBlock => true)

/-- Title-level condition for one line of the text-fallback path. -/
def lineTitleOk (line : String) : Bool :=
  match bulletMatch line with
  | some (n, raw) => if n ≤ 1 then titleOk (jsTrim raw) else true
  | none => true

/-- Title-level condition over all create blocks of the text path. -/
def textTitlesOk (message : String) : Bool :=
  (splitIntoCreateBlocks message).all (fun b => ((splitCh '\n' b).drop 1).all lineTitleOk)

/-- All per-task titles seen by the builder state are non-empty after
trimming. -/
def stateTitlesOk (st : BuildState) : Prop :=
  (∀ u ∈ st.tasks, jsTrim u.title ≠ "") ∧
  (∀ u, st.currentTask = some u → jsTrim u.title ≠ "")

/-- Assignee that the builder derives from a level-0 item content and the
active owner header. -/
def assigneeOf (owner : Option String) (content : String) : Option String :=
  match assigneeMatch content with
  | some (cap, _) => some (jsTrim cap)
  | none => owner

/-- A character list contains no newline. -/
def noNL (s : String) : Bool :=
  s.data.all (fun c => c ≠ '\n')

/-- Body of one rendered checkbox line, without its leading newline. -/
def cbBody (cb : String × Bool) : String :=
  "- [" ++ (if cb.2 then "x" else " ") ++ "] " ++ cb.1

/-- Character stream appended by the checkbox loop of buildCardContent. -/
def cbChars : List (String × Bool) → List Char
  | [] => []
  | cb :: rest => '\n' :: ((cbBody cb).data ++ cbChars rest)

/-- A line in the rendered checkbox-line format. -/
def isCbLineStr (s : String) : Bool :=
  match s.data with
  | '-' :: ' ' :: '[' :: c :: ']' :: ' ' :: _ => c = 'x' || c = ' '
  | _ => false

/-- Decode one rendered checkbox line back to (text, checked). -/
def parseCbLine (s : String) : String × Bool :=
  match s.data with
  | '-' :: ' ' :: '[' :: c :: ']' :: ' ' :: rest => (String.mk rest, c = 'x')
  | _ => (s, false)

/-- Lines of a string (split at every newline). -/
def splitNL (s : String) : List String :=
  splitCh '\n' s

/-- Reference decoder for the Card Content Formatter, following the
specification's layout rules (title line, blank separator, description
lines, blank separator, trailing run of checkbox lines).  Recovers the
(title, description, checkboxes) triple encoded by buildCardContent; the
assignee and deck path are not part of the body string. -/
def decodeCardContent (s : String) : Option (String × List String × List (String × Bool)) :=
  match splitNL s with
  | [] => none
  | t :: rest0 =>
    if rest0 = [] then some (t, [], [])
    else
      match rest0 with
      | [] => none
      | sep :: rest =>
        if sep = "" then
          let revRest := rest.reverse
          let cbRev := revRest.takeWhile isCbLineStr
          let afterCb := revRest.drop cbRev.length
          if cbRev.isEmpty then some (t, rest, [])
          else
            let cbs := cbRev.reverse.map parseCbLine
            if afterCb.isEmpty then some (t, [], cbs)
            else if afterCb.headD "" = "" then some (t, (afterCb.drop 1).reverse, cbs)
            else none
        else none

/-! ## Concrete instances used by counterexamples and witnesses -/

/-- Cache for the C7 witness. -/
def cacheC7 : MappingCache :=
  { emptyCache with deckPaths := [("ma txa/backlog", "D1")] }

/-- Cache for the C8 witness: contains the space "MA TXA". -/
def cacheC8 : MappingCache :=
  { emptyCache with spaces := [("ma txa", "S1")] }

/-- Cache for the C10 counterexample: the empty string is a users key. -/
def cacheC10 : MappingCache :=
  { emptyCache with users := [("a", "id1"), ("", "id2")] }

/-- Cache for the C10 witness. -/
def cacheC10w : MappingCache :=
  { emptyCache with users := [("tobiasz nowak", "U1"), ("anna", "U2")] }

/-- State reached by a successful refresh, for the C1 counterexample. -/
def stateC1 : MappingCache :=
  (refreshCache emptyCache (some [⟨"A", "", "1"⟩]) (some []) (some [])).2

/-- The failed refresh of the C1 counterexample: the spaces fetch returns an
empty registry and the decks fetch throws. -/
def failedC1 : Bool × MappingCache :=
  refreshCache stateC1 (some []) none (some [])

/-- The C2 scenario input (plain-text fallback form). -/
def msgC2 : String :=
  "[Create] [Deck: Art]\nTask A (Bob)\n  - desc1\n    - nested1\n  - desc2\n"

/-- The C2 amended input: a dash bullet before the title line and five
spaces of indentation before the nested line. -/
def msgC2amended : String :=
  "[Create] [Deck: Art]\n- Task A (Bob)\n  - desc1\n     - nested1\n  - desc2\n"

/-- The task the C2 scenario describes. -/
def taskC2 : ParsedTask :=
  ⟨"Task A", some "Bob", ["desc1", "- nested1", "", "desc2"], [], some "Art"⟩

/-- Builder state with an open current task, for the C4 counterexample. -/
def stateC4 : BuildState :=
  ⟨[], some ⟨"T", none, [], [], none⟩, none, 0⟩

/-- A tab inside the brackets: not one of the four specified markers. -/
def itemC4 : Item :=
  ⟨"[\t] foo", 1, true⟩

/-- Current task for the C5 witness: the last processed line was nested. -/
def taskC5 : ParsedTask :=
  ⟨"T", none, ["- nested"], [], none⟩

/-- Builder state for the C5 witness, with lastIndent 2. -/
def stateC5 : BuildState :=
  ⟨[], some taskC5, none, 2⟩

/-- Level-1 description item for the C5 witness. -/
def itemC5 : Item :=
  ⟨"desc2", 1, true⟩

/-- Message whose only title-level line is an inline assignee tag, for the
C9 counterexample. -/
def msgC9 : String :=
  "[Create]\n- (Bob)"

/-- First colliding task for the C6 counterexample: its title contains an
embedded blank line. -/
def taskC6a : ParsedTask :=
  ⟨"A\n\nB", none, [], [], none⟩

/-- Second colliding task for the C6 counterexample. -/
def taskC6b : ParsedTask :=
  ⟨"A", none, ["B"], [], none⟩

/-! ## Helper lemmas -/

theorem isSubstr_nil_left (l : List Char) : isSubstr [] l = true := by
  cases l <;> simp [isSubstr, List.isPrefixOf]

theorem strIncludes_empty (s : String) : strIncludes s "" = true :=
  isSubstr_nil_left s.data

theorem find?_always_true {α : Type} (l : List (String × α)) :
    l.find? (fun p => strIncludes p.1 "" || strIncludes "" p.1) = l.head? := by
  cases l with
  | nil => rfl
  | cons u us =>
    simp [List.find?_cons, strIncludes_empty]

/-! ## Claim theorems -/

/-- C1, counterexample: a refresh reached from a successful refresh, then
failing because the *decks* fetch throws, is not atomic — the spaces map has
already been rebuilt from the new snapshot while the other maps keep the old
state, and resolveSpace answers change. -/
theorem cacheRefresh_partial_cex :
    (refreshCache emptyCache (some [⟨"A", "", "1"⟩]) (some []) (some [])).1 = true ∧
    failedC1.1 = false ∧
    failedC1.2.spaces ≠ stateC1.spaces ∧
    resolveSpace failedC1.2 "A" [] ≠ resolveSpace stateC1 "A" [] := by
  decide

/-- C1 (amended): when a refresh fails because the first registry fetch
(the spaces fetch) throws, the whole cache state — in particular all four
lookup maps — is unchanged, and resolveSpace, resolveDeck and resolveUser
answer exactly as before the failed refresh.  (If a later fetch throws, the
maps already rebuilt keep the new snapshot, as the counterexample shows.) -/
theorem cacheRefresh_firstFetchFail_atomic (st : MappingCache)
    (df : Option (List DeckData)) (uf : Option (List User)) :
    refreshCache st none df uf = (false, st) ∧
    ∀ (s : String) (am sm : List (String × String)),
      resolveSpace (refreshCache st none df uf).2 s am = resolveSpace st s am ∧
      resolveDeck (refreshCache st none df uf).2 s am sm = resolveDeck st s am sm ∧
      resolveUser (refreshCache st none df uf).2 s am = resolveUser st s am := by
  exact ⟨rfl, fun s am sm => ⟨rfl, rfl, rfl⟩⟩

/-- C2, counterexample: on the exact scenario input the text-fallback parser
yields no task at all (the title line carries no bullet character, so no
task is ever opened), not the single described task. -/
theorem textFallback_scenario_cex :
    (parseFromText msgC2).tasks = [] ∧ (parseFromText msgC2).tasks ≠ [taskC2] := by
  decide

/-- C2 (amended): with a dash bullet in front of the title line and five
spaces of indentation before the nested line, the text-fallback parser
yields exactly the described task: title "Task A", assignee "Bob",
description ["desc1", "- nested1", "", "desc2"], no checkboxes, deck path
"Art". -/
theorem textFallback_scenario_amended :
    parseFromText msgC2amended = ⟨[taskC2], some "Art"⟩ := by
  decide

/-- C7: with an empty deck alias map and a space alias map sending "MT" to
"MA TXA", resolving the compound path "MT/Backlog" against a cache whose
deckPaths map binds "ma txa/backlog" to a (non-empty) id D returns D. -/
theorem resolveDeck_compound (c : MappingCache) (D : String)
    (h : mapGet c.deckPaths "ma txa/backlog" = some D) (hD : D ≠ "") :
    resolveDeck c "MT/Backlog" [] [("MT", "MA TXA")] = some D := by
  have e : resolveDeck c "MT/Backlog" [] [("MT", "MA TXA")] =
      (match mapGet c.deckPaths "ma txa/backlog" with
       | some deckId =>
         if deckId ≠ "" then some deckId
         else
           match mapGet c.decks "backlog" with
           | some deckInfo => some deckInfo.id
           | none => none
       | none =>
         match mapGet c.decks "backlog" with
         | some deckInfo => some deckInfo.id
         | none => none) := rfl
  rw [e, h]
  simp [hD]

/-- C7, witness at a concrete cache. -/
theorem resolveDeck_compound_witness :
    mapGet cacheC7.deckPaths "ma txa/backlog" = some "D1" ∧ ("D1" : String) ≠ "" ∧
    resolveDeck cacheC7 "MT/Backlog" [] [("MT", "MA TXA")] = some "D1" :=
  ⟨rfl, by decide, resolveDeck_compound cacheC7 "D1" rfl (by decide)⟩

/-- C8: an input whose normalization equals the normalization of an alias
key (the first matching one) resolves exactly as resolving the alias's full
name directly with no alias map. -/
theorem resolveSpace_alias_equiv (c : MappingCache) (s k full : String)
    (am : List (String × String)) (hs : s ≠ "") (hfull : full ≠ "")
    (hfind : am.find? (fun p => normalize p.1 == normalize s) = some (k, full)) :
    resolveSpace c s am = resolveSpace c full [] := by
  have e1 : resolveAlias s am = full := by
    unfold resolveAlias
    rw [if_neg hs, hfind]
  have e2 : resolveAlias full [] = full := by
    unfold resolveAlias
    rw [if_neg hfull]
    rfl
  unfold resolveSpace
  rw [if_neg hs, if_neg hfull, e1, e2]

/-- C8, witness: the concrete alias scenario, where both resolutions return
the cached id. -/
theorem resolveSpace_alias_equiv_witness :
    ("mt" : String) ≠ "" ∧ ("MA TXA" : String) ≠ "" ∧
    [("MT", "MA TXA")].find? (fun p => normalize p.1 == normalize "mt") =
      some ("MT", "MA TXA") ∧
    resolveSpace cacheC8 "mt" [("MT", "MA TXA")] = resolveSpace cacheC8 "MA TXA" [] ∧
    resolveSpace cacheC8 "mt" [("MT", "MA TXA")] = some "S1" :=
  ⟨by decide, by decide, rfl,
   resolveSpace_alias_equiv cacheC8 "mt" "MT" "MA TXA" _ (by decide) (by decide) rfl,
   by decide⟩

/-- C10, counterexample: in a non-empty cache whose users map carries the
empty string as a key, a whitespace-only input hits that key by direct
lookup and returns its id — not the first user's id, and not via the fuzzy
fallback. -/
theorem resolveUser_empty_norm_cex :
    normalize " " = "" ∧ (" " : String) ≠ "" ∧ cacheC10.users ≠ [] ∧
    cacheC10.users.head?.map Prod.snd = some "id1" ∧
    resolveUser cacheC10 " " [] = some "id2" ∧
    resolveUser cacheC10 " " [] ≠ some "id1" := by
  decide

/-- C10 (amended): provided the empty string is not a users-map key, any
non-empty input normalizing to the empty string resolves, via the
substring-containment fuzzy fallback, to the id of the first user in
insertion order (and to "not found" only when the cache is empty). -/
theorem resolveUser_empty_norm (c : MappingCache) (s : String)
    (hs : s ≠ "") (hnorm : normalize s = "") (hkey : mapGet c.users "" = none) :
    resolveUser c s [] = c.users.head?.map Prod.snd := by
  have e1 : resolveAlias s [] = s := by
    unfold resolveAlias
    rw [if_neg hs]
    rfl
  unfold resolveUser
  rw [if_neg hs, e1]
  simp only [hnorm, hkey, find?_always_true]
  cases c.users.head? <;> rfl

/-- C10, witness at a concrete two-user cache. -/
theorem resolveUser_empty_norm_witness :
    (" " : String) ≠ "" ∧ normalize " " = "" ∧ mapGet cacheC10w.users "" = none ∧
    resolveUser cacheC10w " " [] = some "U1" := by
  refine ⟨by decide, by decide, by decide, ?_⟩
  rw [resolveUser_empty_norm cacheC10w " " (by decide) (by decide) (by decide)]
  rfl

theorem all_dropWhile {α : Type} (p q : α → Bool) (l : List α) (h : l.all q = true) :
    (l.dropWhile p).all q = true := by
  induction l with
  | nil => rfl
  | cons x xs ih =>
    rw [List.all_cons, Bool.and_eq_true] at h
    rw [List.dropWhile_cons]
    by_cases hx : p x = true
    · rw [if_pos hx]
      exact ih h.2
    · rw [if_neg hx, List.all_cons, Bool.and_eq_true]
      exact ⟨h.1, h.2⟩

theorem noLineTerm_tail (c : Char) (l : List Char) (h : noLineTerm (c :: l) = true) :
    noLineTerm l = true := by
  rw [noLineTerm, List.all_cons, Bool.and_eq_true] at h
  exact h.2

theorem noLineTerm_dropWhile (p : Char → Bool) (l : List Char)
    (h : noLineTerm l = true) : noLineTerm (l.dropWhile p) = true :=
  all_dropWhile p _ l h

theorem checkboxMatch_isSome (s : String) (h : noLineTerm s.data = true) :
    (checkboxMatch s).isSome = cbPrefixOk s := by
  obtain ⟨l⟩ := s
  unfold checkboxMatch cbPrefixOk
  rcases l with _ | ⟨c0, _ | ⟨c1, rest1⟩⟩
  · rfl
  · rfl
  · show (checkboxMatch (String.mk (c0 :: c1 :: rest1))).isSome =
      cbPrefixOk (String.mk (c0 :: c1 :: rest1))
    have h1 : noLineTerm rest1 = true := noLineTerm_tail _ _ (noLineTerm_tail _ _ h)
    unfold checkboxMatch cbPrefixOk
    by_cases h0 : c0 = '['
    · subst h0
      by_cases hb : c1 = ']'
      · subst hb
        simp [noLineTerm_dropWhile jsWs rest1 h1]
      · rcases rest1 with _ | ⟨c2, rest2⟩
        · simp [hb]
        · have h2 : noLineTerm (rest2.dropWhile jsWs) = true :=
            noLineTerm_dropWhile jsWs rest2 (noLineTerm_tail _ _ h1)
          simp [hb, h2]
          by_cases hP : ((c1 = 'x' ∨ c1 = 'X') ∨ jsWs c1 = true) ∧ c2 = ']'
          · have hbool : ((decide (c1 = 'x') || decide (c1 = 'X') || jsWs c1) &&
                decide (c2 = ']')) = true := by
              simp only [Bool.and_eq_true, Bool.or_eq_true, decide_eq_true_eq]
              tauto
            rw [if_pos hP, hbool]
            rfl
          · have hbool : ((decide (c1 = 'x') || decide (c1 = 'X') || jsWs c1) &&
                decide (c2 = ']')) = false := by
              rw [Bool.eq_false_iff]
              intro hc
              apply hP
              simp only [Bool.and_eq_true, Bool.or_eq_true, decide_eq_true_eq] at hc
              tauto
            rw [if_neg hP, hbool]
            rfl
    · simp [h0]

theorem checkboxMatch_checked (s : String) (chk : Bool) (lbl : String)
    (h : checkboxMatch s = some (chk, lbl)) : chk = cbPrefixChecked s := by
  obtain ⟨l⟩ := s
  unfold checkboxMatch at h
  unfold cbPrefixChecked
  rcases l with _ | ⟨c0, _ | ⟨c1, rest1⟩⟩
  · exact absurd h (by simp)
  · exact absurd h (by simp)
  · by_cases h0 : c0 = '['
    · subst h0
      by_cases hb : c1 = ']'
      · subst hb
        simp at h ⊢
        exact h.2.1
      · rcases rest1 with _ | ⟨c2, rest2⟩
        · simp [hb] at h
        · simp [hb] at h ⊢
          exact h.2.1.symm
    · simp [h0] at h

theorem stepItem_level1 (st : BuildState) (t : ParsedTask) (item : Item)
    (hcur : st.currentTask = some t) (hlist : item.isList = true)
    (htxt : item.text ≠ "") (hind : item.indent = 1) :
    stepItem st item = { st with
      currentTask := some { t with
        description := (if 2 ≤ st.lastIndent then t.description ++ [""] else t.description)
          ++ descContrib item.text,
        checkboxes := t.checkboxes ++ cbContrib item.text },
      lastIndent := 1 } := by
  unfold stepItem stepListCore descContrib cbContrib
  rcases hcm : checkboxMatch item.text with _ | ⟨chk, lbl⟩ <;>
    simp [hlist, htxt, hind, hcur, hcm]

theorem stepItem_level2 (st : BuildState) (t : ParsedTask) (item : Item)
    (hcur : st.currentTask = some t) (hlist : item.isList = true)
    (htxt : item.text ≠ "") (hind : 2 ≤ item.indent) :
    stepItem st item = { st with
      currentTask := some { t with
        description := t.description ++
          (match checkboxMatch item.text with
           | some _ => []
           | none => ["- " ++ item.text]),
        checkboxes := t.checkboxes ++ cbContrib item.text },
      lastIndent := item.indent } := by
  have hne0 : item.indent ≠ 0 := by omega
  have hne1 : item.indent ≠ 1 := by omega
  unfold stepItem stepListCore cbContrib
  rcases hcm : checkboxMatch item.text with _ | ⟨chk, lbl⟩ <;>
    simp [hlist, htxt, hne0, hne1, hind, hcur, hcm]

/-- C3: under an active owner header, an inline (Name) suffix on a title
item overrides the header for that one task only; the next title item
without an inline suffix takes the header's owner.  Stated for a section
whose items are exactly a non-list owner-header line, a title item with an
inline suffix, and a title item without one. -/
theorem ownerHeader_precedence (cl a t1 t2 cap pre : String)
    (ha : isOwnerHeader a = true)
    (h1 : t1 ≠ "") (hm1 : assigneeMatch t1 = some (cap, pre))
    (h2 : t2 ≠ "") (hm2 : assigneeMatch t2 = none) :
    (parseCreateSection ⟨cl, [⟨a, -1, false⟩, ⟨t1, 0, true⟩, ⟨t2, 0, true⟩]⟩).1 =
      [⟨jsTrim pre, some (jsTrim cap), [], [], none⟩,
       ⟨t2, some (extractOwnerName a), [], [], none⟩] := by
  unfold parseCreateSection
  simp [stepItem, stepListCore, initState, ha, h1, hm1, h2, hm2]

/-- C3, witness at the concrete "Ana:" / "Fix bug (Piotr)" / "Fix bug2"
scenario. -/
theorem ownerHeader_precedence_witness :
    (parseCreateSection ⟨"[Create]",
        [⟨"Ana:", -1, false⟩, ⟨"Fix bug (Piotr)", 0, true⟩, ⟨"Fix bug2", 0, true⟩]⟩).1 =
      [⟨"Fix bug", some "Piotr", [], [], none⟩,
       ⟨"Fix bug2", some "Ana", [], [], none⟩] := by
  exact ownerHeader_precedence "[Create]" "Ana:" "Fix bug (Piotr)" "Fix bug2"
    "Piotr" "Fix bug " (by decide) (by decide) rfl (by decide) rfl

/-- C4 (amended): a body-level item (level 1 or deeper) processed with a
current task active and no line terminator in its text is recorded as a
checkbox exactly when its text starts with an opening bracket, an optional
single x/X/whitespace character, and a closing bracket (so `[\t] foo` also
counts, beyond the four markers the specification lists); when recorded,
the checked state is true exactly for x/X; otherwise the checkbox list is
unchanged and the line falls through to description handling. -/
theorem checkbox_detection (st : BuildState) (t : ParsedTask) (item : Item)
    (hcur : st.currentTask = some t) (hlist : item.isList = true)
    (hind : 1 ≤ item.indent) (hnl : noLineTerm item.text.data = true) :
    (((stepItem st item).currentTask.map fun u => u.checkboxes.length) =
        some (t.checkboxes.length + 1) ↔ cbPrefixOk item.text = true)
    ∧ (cbPrefixOk item.text = false →
        ((stepItem st item).currentTask.map fun u => u.checkboxes) = some t.checkboxes)
    ∧ (cbPrefixOk item.text = true →
        ((stepItem st item).currentTask.map fun u => u.checkboxes.map Prod.snd) =
          some (t.checkboxes.map Prod.snd ++ [cbPrefixChecked item.text])) := by
  have hOk := checkboxMatch_isSome item.text hnl
  by_cases htxt : item.text = ""
  · have hstep : stepItem st item = st := by
      unfold stepItem
      simp [hlist, htxt]
    have hp : cbPrefixOk item.text = false := by
      rw [htxt]
      rfl
    rw [hstep, hp, hcur]
    refine ⟨by simp, fun _ => by simp, fun hc => absurd hc (by simp)⟩
  · have hi : item.indent = 1 ∨ 2 ≤ item.indent := by omega
    have hstep : ((stepItem st item).currentTask.map fun u => u.checkboxes) =
        some (t.checkboxes ++ cbContrib item.text) := by
      rcases hi with hi | hi
      · rw [stepItem_level1 st t item hcur hlist htxt hi]
        rfl
      · rw [stepItem_level2 st t item hcur hlist htxt hi]
        rfl
    have hlen : ((stepItem st item).currentTask.map fun u => u.checkboxes.length) =
        some ((t.checkboxes ++ cbContrib item.text).length) := by
      rcases hi with hi | hi
      · rw [stepItem_level1 st t item hcur hlist htxt hi]
        rfl
      · rw [stepItem_level2 st t item hcur hlist htxt hi]
        rfl
    refine ⟨?_, ?_, ?_⟩
    · rw [hlen]
      rcases hcm : checkboxMatch item.text with _ | ⟨chk, lbl⟩
      · have hp : cbPrefixOk item.text = false := by
          rw [← hOk, hcm]
          rfl
        rw [hp]
        simp [cbContrib, hcm]
      · have hp : cbPrefixOk item.text = true := by
          rw [← hOk, hcm]
          rfl
        rw [hp]
        simp [cbContrib, hcm]
    · intro hp
      rw [hstep]
      rcases hcm : checkboxMatch item.text with _ | ⟨chk, lbl⟩
      · simp [cbContrib, hcm]
      · rw [← hOk, hcm] at hp
        exact absurd hp (by simp)
    · intro hp
      have hmap : ((stepItem st item).currentTask.map fun u => u.checkboxes.map Prod.snd) =
          some ((t.checkboxes ++ cbContrib item.text).map Prod.snd) := by
        rcases hi with hi | hi
        · rw [stepItem_level1 st t item hcur hlist htxt hi]
          rfl
        · rw [stepItem_level2 st t item hcur hlist htxt hi]
          rfl
      rw [hmap]
      rcases hcm : checkboxMatch item.text with _ | ⟨chk, lbl⟩
      · rw [← hOk, hcm] at hp
        exact absurd hp (by simp)
      · have := checkboxMatch_checked item.text chk lbl hcm
        simp [cbContrib, hcm, this]

/-- C4, counterexample: the line `[\t] foo` is recorded as an (unchecked)
checkbox although it starts with none of the four markers `[ ]`, `[]`,
`[x]`, `[X]` the claim lists. -/
theorem checkbox_detection_cex :
    (stepItem stateC4 itemC4).currentTask = some ⟨"T", none, [], [("foo", false)], none⟩ ∧
    fourPrefixLit itemC4.text = false := by
  decide

/-- C4, witness for the amended theorem at the tab-marker item. -/
theorem checkbox_detection_witness :
    stateC4.currentTask = some ⟨"T", none, [], [], none⟩ ∧
    itemC4.isList = true ∧ (1 : Int) ≤ itemC4.indent ∧
    noLineTerm itemC4.text.data = true ∧
    (((stepItem stateC4 itemC4).currentTask.map fun u => u.checkboxes.length) =
        some 1 ↔ cbPrefixOk itemC4.text = true) := by
  refine ⟨rfl, rfl, by decide, by decide, ?_⟩
  exact (checkbox_detection stateC4 ⟨"T", none, [], [], none⟩ itemC4
    rfl rfl (by decide) (by decide)).1

/-- C5: a level-1 body item processed with a current task active inserts
exactly one empty description line when the previous item was at level 2 or
deeper, and none otherwise — in both cases followed by the item's normal
contribution (a description line, or nothing for a checkbox). -/
theorem blank_line_reinsertion (st : BuildState) (t : ParsedTask) (item : Item)
    (hcur : st.currentTask = some t) (hback : 2 ≤ st.lastIndent)
    (hlist : item.isList = true) (hind : item.indent = 1) (htxt : item.text ≠ "") :
    (stepItem st item).currentTask = some { t with
        description := t.description ++ [""] ++ descContrib item.text,
        checkboxes := t.checkboxes ++ cbContrib item.text }
    ∧ ∀ (st2 : BuildState), st2.currentTask = some t → st2.lastIndent < 2 →
      (stepItem st2 item).currentTask = some { t with
        description := t.description ++ descContrib item.text,
        checkboxes := t.checkboxes ++ cbContrib item.text } := by
  constructor
  · rw [stepItem_level1 st t item hcur hlist htxt hind]
    simp [if_pos hback, List.append_assoc]
  · intro st2 h2 hlt
    rw [stepItem_level1 st2 t item h2 hlist htxt hind]
    simp [if_neg (by omega : ¬ (2 : Int) ≤ st2.lastIndent)]

/-- C5, witness: returning from a level-2 line to a level-1 description
line inserts one blank line; without the transition none is inserted. -/
theorem blank_line_reinsertion_witness :
    stateC5.currentTask = some taskC5 ∧ (2 : Int) ≤ stateC5.lastIndent ∧
    itemC5.isList = true ∧ itemC5.indent = 1 ∧ itemC5.text ≠ "" ∧
    (stepItem stateC5 itemC5).currentTask =
      some ⟨"T", none, ["- nested", "", "desc2"], [], none⟩ := by
  refine ⟨rfl, by decide, rfl, rfl, by decide, ?_⟩
  rw [(blank_line_reinsertion stateC5 taskC5 itemC5 rfl (by decide) rfl rfl (by decide)).1]
  rfl

/-! ## Title invariant (C9) -/

theorem seal_titles (st : BuildState) (hst : stateTitlesOk st) :
    ∀ u ∈ st.tasks ++ st.currentTask.toList, jsTrim u.title ≠ "" := by
  intro u hu
  rcases List.mem_append.mp hu with h | h
  · exact hst.1 u h
  · cases hcur : st.currentTask with
    | none => rw [hcur] at h; simp at h
    | some t =>
      rw [hcur] at h
      simp at h
      subst h
      exact hst.2 _ hcur

theorem stepListCore_level0 (st : BuildState) (content : String) (level : Int)
    (h : level = 0) :
    stepListCore st content level = ⟨st.tasks ++ st.currentTask.toList,
      some ⟨titleOf content, assigneeOf st.currentOwner content, [], [], none⟩,
      st.currentOwner, 0⟩ := by
  subst h
  unfold stepListCore titleOf assigneeOf
  rcases ham : assigneeMatch content with _ | ⟨cap, pre⟩ <;> simp [ham]

theorem stepListCore_level1_task (st : BuildState) (content : String) (level : Int)
    (t : ParsedTask) (h1 : level = 1) (hcur : st.currentTask = some t) :
    stepListCore st content level = { st with
      currentTask := some { t with
        description := (if 2 ≤ st.lastIndent then t.description ++ [""] else t.description)
          ++ descContrib content,
        checkboxes := t.checkboxes ++ cbContrib content },
      lastIndent := 1 } := by
  subst h1
  unfold stepListCore descContrib cbContrib
  rcases hcm : checkboxMatch content with _ | ⟨chk, lbl⟩ <;> simp [hcur, hcm]

theorem stepListCore_level2_task (st : BuildState) (content : String) (level : Int)
    (t : ParsedTask) (h2 : 2 ≤ level) (hcur : st.currentTask = some t) :
    stepListCore st content level = { st with
      currentTask := some { t with
        description := t.description ++
          (match checkboxMatch content with
           | some _ => []
           | none => ["- " ++ content]),
        checkboxes := t.checkboxes ++ cbContrib content },
      lastIndent := level } := by
  have hne0 : level ≠ 0 := by omega
  have hne1 : level ≠ 1 := by omega
  unfold stepListCore cbContrib
  rcases hcm : checkboxMatch content with _ | ⟨chk, lbl⟩ <;>
    simp [hne0, hne1, h2, hcur, hcm]

theorem stepListCore_titles (st : BuildState) (content : String) (level : Int)
    (hst : stateTitlesOk st) (h0 : level = 0 → titleOk content = true) :
    stateTitlesOk (stepListCore st content level) := by
  by_cases hl0 : level = 0
  · rw [stepListCore_level0 st content level hl0]
    refine ⟨seal_titles st hst, ?_⟩
    intro u hu
    injection hu with hu
    subst hu
    exact of_decide_eq_true (h0 hl0)
  · by_cases hl1 : level = 1
    · cases hcur : st.currentTask with
      | none =>
        have he : stepListCore st content level = st := by
          subst hl1
          unfold stepListCore
          simp [hcur]
        rw [he]
        exact hst
      | some t =>
        rw [stepListCore_level1_task st content level t hl1 hcur]
        refine ⟨hst.1, ?_⟩
        intro u hu
        injection hu with hu
        subst hu
        exact hst.2 t hcur
    · by_cases hl2 : 2 ≤ level
      · cases hcur : st.currentTask with
        | none =>
          have he : stepListCore st content level = st := by
            unfold stepListCore
            simp [hl0, hl1, hl2, hcur]
          rw [he]
          exact hst
        | some t =>
          rw [stepListCore_level2_task st content level t hl2 hcur]
          refine ⟨hst.1, ?_⟩
          intro u hu
          injection hu with hu
          subst hu
          exact hst.2 t hcur
      · have he : stepListCore st content level = st := by
          unfold stepListCore
          simp [hl0, hl1, hl2]
        rw [he]
        exact hst

theorem stepItem_titles (st : BuildState) (item : Item) (hst : stateTitlesOk st)
    (hit : (!item.isList || item.indent ≠ 0 || item.text = "" || titleOk item.text)
      = true) : stateTitlesOk (stepItem st item) := by
  by_cases hl : item.isList = true
  · by_cases ht : item.text = ""
    · have he : stepItem st item = st := by
        unfold stepItem
        simp [hl, ht]
      rw [he]
      exact hst
    · have he : stepItem st item = stepListCore st item.text item.indent := by
        unfold stepItem
        simp [hl, ht]
      rw [he]
      apply stepListCore_titles st item.text item.indent hst
      intro h0
      simpa [hl, h0, ht] using hit
  · have hl2 : item.isList = false := by simpa using hl
    by_cases ho : isOwnerHeader item.text = true
    · have he : stepItem st item = ⟨st.tasks ++ st.currentTask.toList,
          none, some (extractOwnerName item.text), -1⟩ := by
        unfold stepItem
        simp [hl2, ho]
      rw [he]
      refine ⟨seal_titles st hst, ?_⟩
      intro u hu
      simp at hu
    · have he : stepItem st item = st := by
        unfold stepItem
        simp [hl2, ho]
      rw [he]
      exact hst

theorem textStep_titles (st : BuildState) (line : String) (hst : stateTitlesOk st)
    (hline : lineTitleOk line = true) : stateTitlesOk (textStep st line) := by
  by_cases htr : jsTrim line = ""
  · have he : textStep st line = st := by
      unfold textStep
      simp [htr]
    rw [he]
    exact hst
  · rcases hbm : bulletMatch line with _ | ⟨n, raw⟩
    · by_cases ho : (ownerBodyTest (jsTrim line) && !(jsTrim line).data.contains '[') = true
      · have he : textStep st line = ⟨st.tasks ++ st.currentTask.toList,
            none, some (extractOwnerName (jsTrim line)), -1⟩ := by
          unfold textStep
          simp only [if_neg htr, hbm]
          rw [if_pos ho]
        rw [he]
        refine ⟨seal_titles st hst, ?_⟩
        intro u hu
        simp at hu
      · have he : textStep st line = st := by
          unfold textStep
          simp only [if_neg htr, hbm]
          rw [if_neg ho]
        rw [he]
        exact hst
    · have he : textStep st line = stepListCore st (jsTrim raw)
          (if n ≤ 1 then 0 else if n ≤ 4 then 1 else 2) := by
        unfold textStep
        simp only [if_neg htr, hbm]
      rw [he]
      apply stepListCore_titles _ _ _ hst
      intro h0
      have hn : n ≤ 1 := by
        by_contra hn
        rw [if_neg hn] at h0
        by_cases h4 : n ≤ 4
        · rw [if_pos h4] at h0
          exact absurd h0 (by decide)
        · rw [if_neg h4] at h0
          exact absurd h0 (by decide)
      simpa [lineTitleOk, hbm, hn] using hline

theorem foldl_stepItem_titles (items : List Item) (st : BuildState)
    (hst : stateTitlesOk st) (hall : itemsTitlesOk items = true) :
    stateTitlesOk (items.foldl stepItem st) := by
  induction items generalizing st with
  | nil => exact hst
  | cons it rest ih =>
    rw [itemsTitlesOk, List.all_cons, Bool.and_eq_true] at hall
    rw [List.foldl_cons]
    exact ih _ (stepItem_titles st it hst hall.1) hall.2

theorem foldl_textStep_titles (lines : List String) (st : BuildState)
    (hst : stateTitlesOk st) (hall : lines.all lineTitleOk = true) :
    stateTitlesOk (lines.foldl textStep st) := by
  induction lines generalizing st with
  | nil => exact hst
  | cons l rest ih =>
    rw [List.all_cons, Bool.and_eq_true] at hall
    rw [List.foldl_cons]
    exact ih _ (textStep_titles st l hst hall.1) hall.2

theorem initState_titles : stateTitlesOk initState := by
  constructor
  · intro u hu
    simp [initState] at hu
  · intro u hu
    simp [initState] at hu

theorem parseCreateSection_titles (sec : CreateSection)
    (h : itemsTitlesOk sec.items = true) :
    ∀ u ∈ (parseCreateSection sec).1, jsTrim u.title ≠ "" := by
  intro u hu
  exact seal_titles _ (foldl_stepItem_titles sec.items initState initState_titles h) u hu

theorem parseCreateBlockText_titles (block : String)
    (h : ((splitCh '\n' block).drop 1).all lineTitleOk = true) :
    ∀ u ∈ (parseCreateBlockText block).1, jsTrim u.title ≠ "" := by
  intro u hu
  exact seal_titles _
    (foldl_textStep_titles ((splitCh '\n' block).drop 1) initState initState_titles h) u hu

theorem accumSection_titles (acc : List ParsedTask × Option String) (sec : CreateSection)
    (hacc : ∀ u ∈ acc.1, jsTrim u.title ≠ "") (hsec : itemsTitlesOk sec.items = true) :
    ∀ u ∈ (accumSection acc sec).1, jsTrim u.title ≠ "" := by
  intro u hu
  unfold accumSection at hu
  simp only [List.mem_append, List.mem_map] at hu
  rcases hu with hu | ⟨t, ht, rfl⟩
  · exact hacc u hu
  · exact parseCreateSection_titles sec hsec t ht

theorem foldl_accumSection_titles (secs : List CreateSection)
    (acc : List ParsedTask × Option String)
    (hacc : ∀ u ∈ acc.1, jsTrim u.title ≠ "")
    (hsecs : secs.all (fun sec => itemsTitlesOk sec.items) = true) :
    ∀ u ∈ (secs.foldl accumSection acc).1, jsTrim u.title ≠ "" := by
  induction secs generalizing acc with
  | nil => exact hacc
  | cons s rest ih =>
    rw [List.all_cons, Bool.and_eq_true] at hsecs
    rw [List.foldl_cons]
    exact ih _ (accumSection_titles acc s hacc hsecs.1) hsecs.2

theorem foldl_accumBlock_titles (blocks : List SlackBlock)
    (acc : List ParsedTask × Option String)
    (hacc : ∀ u ∈ acc.1, jsTrim u.title ≠ "")
    (hblocks : blocksTitlesOk blocks = true) :
    ∀ u ∈ (blocks.foldl accumBlock acc).1, jsTrim u.title ≠ "" := by
  induction blocks generalizing acc with
  | nil => exact hacc
  | cons b rest ih =>
    rw [blocksTitlesOk, List.all_cons, Bool.and_eq_true] at hblocks
    rw [List.foldl_cons]
    refine ih _ ?_ hblocks.2
    cases b with
    | otherBlock => exact hacc
    | richText els => exact foldl_accumSection_titles _ acc hacc hblocks.1

theorem accumTextBlock_titles (acc : List ParsedTask × Option String) (block : String)
    (hacc : ∀ u ∈ acc.1, jsTrim u.title ≠ "")
    (hb : ((splitCh '\n' block).drop 1).all lineTitleOk = true) :
    ∀ u ∈ (accumTextBlock acc block).1, jsTrim u.title ≠ "" := by
  intro u hu
  unfold accumTextBlock at hu
  simp only [List.mem_append, List.mem_map] at hu
  rcases hu with hu | ⟨t, ht, rfl⟩
  · exact hacc u hu
  · exact parseCreateBlockText_titles block hb t ht

theorem foldl_accumTextBlock_titles (bs : List String)
    (acc : List ParsedTask × Option String)
    (hacc : ∀ u ∈ acc.1, jsTrim u.title ≠ "")
    (hbs : bs.all (fun b => ((splitCh '\n' b).drop 1).all lineTitleOk) = true) :
    ∀ u ∈ (bs.foldl accumTextBlock acc).1, jsTrim u.title ≠ "" := by
  induction bs generalizing acc with
  | nil => exact hacc
  | cons b rest ih =>
    rw [List.all_cons, Bool.and_eq_true] at hbs
    rw [List.foldl_cons]
    exact ih _ (accumTextBlock_titles acc b hacc hbs.1) hbs.2

theorem parseFromBlocks_titles (blocks : List SlackBlock)
    (h : blocksTitlesOk blocks = true) :
    ∀ u ∈ (parseFromBlocks blocks).tasks, jsTrim u.title ≠ "" := by
  intro u hu
  exact foldl_accumBlock_titles blocks ([], none) (by intro u hu; simp at hu) h u hu

theorem parseFromText_titles (message : String) (h : textTitlesOk message = true) :
    ∀ u ∈ (parseFromText message).tasks, jsTrim u.title ≠ "" := by
  intro u hu
  exact foldl_accumTextBlock_titles (splitIntoCreateBlocks message) ([], none)
    (by intro u hu; simp at hu) h u hu

/-- C9 (amended): every task produced by parseTaskMessage — on either the
structured-blocks path or the text-fallback path — has a title that is
non-empty after trimming, provided no title-level item consists solely of
an inline `(Name)` assignee tag (equivalently: every title-level item's
text still has a non-empty trimmed title after the inline tag is
stripped). -/
theorem parser_title_nonempty (text : String) (blocks : List SlackBlock)
    (h : if blocks.isEmpty then textTitlesOk text = true
         else blocksTitlesOk blocks = true) :
    ∀ u ∈ (parseTaskMessage text blocks).tasks, jsTrim u.title ≠ "" := by
  unfold parseTaskMessage
  by_cases hc : strIncludes text "[Create]" = true
  · cases blocks with
    | nil =>
      simp only [hc, List.isEmpty_nil, if_true] at h ⊢
      simpa using parseFromText_titles text h
    | cons b bs =>
      simp only [hc, List.isEmpty_cons, if_false] at h ⊢
      simpa using parseFromBlocks_titles (b :: bs) h
  · have hc2 : strIncludes text "[Create]" = false := by simpa using hc
    simp [hc2]

/-- C9, witness: a well-formed message through the text-fallback path. -/
theorem parser_title_nonempty_witness :
    (if ([] : List SlackBlock).isEmpty
       then textTitlesOk "[Create]\n- Fix bug (Piotr)" = true
       else blocksTitlesOk [] = true) ∧
    ∀ u ∈ (parseTaskMessage "[Create]\n- Fix bug (Piotr)" []).tasks,
      jsTrim u.title ≠ "" :=
  ⟨by decide, parser_title_nonempty "[Create]\n- Fix bug (Piotr)" [] (by decide)⟩

/-- C9, counterexample: the message `[Create]` + `- (Bob)` produces a task
whose whole title line was the inline assignee tag, leaving a title that is
empty after trimming — so the invariant as claimed does not hold of every
parser output. -/
theorem parser_title_nonempty_cex :
    (parseTaskMessage msgC9 []).tasks = [⟨"", some "Bob", [], [], none⟩] ∧
    jsTrim ("" : String) = "" := by
  decide

/-! ## Round-trip of the Card Content Formatter (C6) -/

theorem strData_append (a b : String) : (a ++ b).data = a.data ++ b.data :=
  rfl

theorem splitChAux_noSep (c : Char) (xs : List Char)
    (h : xs.all (fun a => a ≠ c) = true) : splitChAux c xs = [xs] := by
  induction xs with
  | nil => rfl
  | cons x l ih =>
    rw [List.all_cons, Bool.and_eq_true] at h
    have hx : x ≠ c := by simpa using h.1
    show splitChAux c (x :: l) = [x :: l]
    simp only [splitChAux]
    rw [ih h.2, if_neg hx]

theorem splitChAux_cons_sep (c : Char) (ys : List Char) :
    splitChAux c (c :: ys) = [] :: splitChAux c ys := by
  simp [splitChAux]

theorem splitChAux_sep (c : Char) (xs ys : List Char)
    (h : xs.all (fun a => a ≠ c) = true) :
    splitChAux c (xs ++ c :: ys) = xs :: splitChAux c ys := by
  induction xs with
  | nil => simpa using splitChAux_cons_sep c ys
  | cons x l ih =>
    rw [List.all_cons, Bool.and_eq_true] at h
    have hx : x ≠ c := by simpa using h.1
    show splitChAux c (x :: (l ++ c :: ys)) = (x :: l) :: splitChAux c ys
    simp only [splitChAux]
    rw [ih h.2, if_neg hx]

theorem splitMid (d : List String) (hd : d.all noNL = true) (hne : d ≠ [])
    (Y : List Char) :
    splitChAux '\n' ((joinNL d).data ++ '\n' :: Y) =
      d.map String.data ++ splitChAux '\n' Y := by
  induction d with
  | nil => exact absurd rfl hne
  | cons s rest ih =>
    rw [List.all_cons, Bool.and_eq_true] at hd
    cases rest with
    | nil =>
      show splitChAux '\n' (s.data ++ '\n' :: Y) = [s.data] ++ splitChAux '\n' Y
      rw [splitChAux_sep '\n' s.data Y hd.1]
      rfl
    | cons s2 r2 =>
      have e : (joinNL (s :: s2 :: r2)).data ++ '\n' :: Y =
          s.data ++ '\n' :: ((joinNL (s2 :: r2)).data ++ '\n' :: Y) := by
        show ((s ++ "\n" ++ joinNL (s2 :: r2))).data ++ '\n' :: Y = _
        simp [strData_append, List.append_assoc]
      rw [e, splitChAux_sep '\n' s.data _ hd.1, ih hd.2 (by simp)]
      rfl

theorem splitEnd (d : List String) (hd : d.all noNL = true) (hne : d ≠ []) :
    splitChAux '\n' ((joinNL d).data) = d.map String.data := by
  induction d with
  | nil => exact absurd rfl hne
  | cons s rest ih =>
    rw [List.all_cons, Bool.and_eq_true] at hd
    cases rest with
    | nil => exact splitChAux_noSep '\n' s.data hd.1
    | cons s2 r2 =>
      have e : (joinNL (s :: s2 :: r2)).data =
          s.data ++ '\n' :: (joinNL (s2 :: r2)).data := by
        show ((s ++ "\n" ++ joinNL (s2 :: r2))).data = _
        simp [strData_append, List.append_assoc]
      rw [e, splitChAux_sep '\n' s.data _ hd.1, ih hd.2 (by simp)]
      rfl

theorem cbBody_noNL (cb : String × Bool) (h : noNL cb.1 = true) :
    noNL (cbBody cb) = true := by
  obtain ⟨txt, chk⟩ := cb
  simp [noNL] at h
  cases chk <;> (simp [cbBody, noNL, strData_append]; exact h)

theorem foldl_cbLine_data (cbs : List (String × Bool)) (acc : String) :
    (cbs.foldl (fun a cb => a ++ cbLine cb) acc).data = acc.data ++ cbChars cbs := by
  induction cbs generalizing acc with
  | nil => simp [cbChars]
  | cons cb rest ih =>
    rw [List.foldl_cons, ih, strData_append]
    have e : (cbLine cb).data = '\n' :: (cbBody cb).data := rfl
    rw [e]
    simp [cbChars, List.append_assoc]

theorem splitCbChars (cbs : List (String × Bool))
    (h : cbs.all (fun cb => noNL cb.1) = true) :
    splitChAux '\n' (cbChars cbs) = [] :: cbs.map (fun cb => (cbBody cb).data) := by
  induction cbs with
  | nil => rfl
  | cons cb rest ih =>
    rw [List.all_cons, Bool.and_eq_true] at h
    show splitChAux '\n' ('\n' :: ((cbBody cb).data ++ cbChars rest)) = _
    rw [splitChAux_cons_sep]
    cases rest with
    | nil =>
      rw [show cbChars [] = [] from rfl, List.append_nil,
        splitChAux_noSep '\n' _ (cbBody_noNL cb h.1)]
      rfl
    | cons cb2 r2 =>
      have e : cbChars (cb2 :: r2) = '\n' :: ((cbBody cb2).data ++ cbChars r2) := rfl
      rw [e, splitChAux_sep '\n' _ _ (cbBody_noNL cb h.1)]
      have ih2 := ih h.2
      rw [e, splitChAux_cons_sep] at ih2
      injection ih2 with _ ih3
      rw [ih3]
      rfl

theorem takeWhile_all_false {α : Type} (p : α → Bool) (l : List α)
    (h : l.all (fun x => !(p x)) = true) : l.takeWhile p = [] := by
  cases l with
  | nil => rfl
  | cons x xs =>
    rw [List.all_cons, Bool.and_eq_true] at h
    have hx : p x = false := by simpa using h.1
    simp [List.takeWhile_cons, hx]

theorem takeWhile_all_true {α : Type} (p : α → Bool) (l : List α)
    (h : l.all p = true) : l.takeWhile p = l := by
  induction l with
  | nil => rfl
  | cons x xs ih =>
    rw [List.all_cons, Bool.and_eq_true] at h
    simp [List.takeWhile_cons, h.1, ih h.2]

theorem takeWhile_append_stop {α : Type} (p : α → Bool) (A : List α) (b : α)
    (C : List α) (hA : A.all p = true) (hb : p b = false) :
    (A ++ b :: C).takeWhile p = A := by
  induction A with
  | nil => simp [List.takeWhile_cons, hb]
  | cons x xs ih =>
    rw [List.all_cons, Bool.and_eq_true] at hA
    simp [List.takeWhile_cons, hA.1, ih hA.2]

theorem isCbLineStr_cbBody (cb : String × Bool) : isCbLineStr (cbBody cb) = true := by
  obtain ⟨txt, chk⟩ := cb
  cases chk <;> rfl

theorem parseCb_cbBody (cb : String × Bool) : parseCbLine (cbBody cb) = cb := by
  obtain ⟨txt, chk⟩ := cb
  cases chk <;> rfl

theorem map_mk_data (l : List String) : (l.map String.data).map String.mk = l := by
  induction l with
  | nil => rfl
  | cons s rest ih => simp [ih]

theorem map_mk_body (l : List (String × Bool)) :
    ((l.map (fun cb => (cbBody cb).data)).map String.mk) = l.map cbBody := by
  induction l with
  | nil => rfl
  | cons cb rest ih => simp [ih]

theorem map_cbBody_all (l : List (String × Bool)) :
    (l.map cbBody).all isCbLineStr = true := by
  induction l with
  | nil => rfl
  | cons cb rest ih => simp [isCbLineStr_cbBody, ih]

theorem map_parse_body (l : List (String × Bool)) :
    (l.map cbBody).map parseCbLine = l := by
  induction l with
  | nil => rfl
  | cons cb rest ih => simp [parseCb_cbBody, ih]

theorem map_parse_comp (l : List (String × Bool)) :
    l.map (parseCbLine ∘ cbBody) = l := by
  induction l with
  | nil => rfl
  | cons cb rest ih => simp [Function.comp, parseCb_cbBody, ih]

theorem decode_single (s t : String) (hs : splitNL s = [t]) :
    decodeCardContent s = some (t, [], []) := by
  unfold decodeCardContent
  rw [hs]
  rfl

theorem decode_descOnly (s t : String) (rest : List String)
    (hs : splitNL s = t :: "" :: rest)
    (hrest : rest.all (fun d => !(isCbLineStr d)) = true) :
    decodeCardContent s = some (t, rest, []) := by
  unfold decodeCardContent
  rw [hs]
  have h1 : rest.reverse.takeWhile isCbLineStr = [] :=
    takeWhile_all_false _ _ (by rw [List.all_reverse]; exact hrest)
  simp [h1]

theorem decode_cbSection (s t : String) (CB : List (String × Bool)) (hCB : CB ≠ [])
    (hs : splitNL s = t :: "" :: CB.map cbBody) :
    decodeCardContent s = some (t, [], CB) := by
  unfold decodeCardContent
  rw [hs]
  have h1 : (CB.map cbBody).reverse.takeWhile isCbLineStr = (CB.map cbBody).reverse :=
    takeWhile_all_true _ _ (by rw [List.all_reverse]; exact map_cbBody_all CB)
  simp [h1, List.drop_length, List.reverse_reverse, map_parse_body, map_parse_comp, hCB]

theorem decode_full (s t : String) (D : List String) (CB : List (String × Bool))
    (hD : D ≠ []) (hCB : CB ≠ [])
    (hdcb : D.all (fun d => !(isCbLineStr d)) = true)
    (hs : splitNL s = t :: "" :: (D ++ "" :: CB.map cbBody)) :
    decodeCardContent s = some (t, D, CB) := by
  unfold decodeCardContent
  rw [hs]
  have hrev : (D ++ "" :: CB.map cbBody).reverse =
      (CB.map cbBody).reverse ++ "" :: D.reverse := by
    simp
  have h1 : ((CB.map cbBody).reverse ++ "" :: D.reverse).takeWhile isCbLineStr =
      (CB.map cbBody).reverse :=
    takeWhile_append_stop _ _ _ _ (by rw [List.all_reverse]; exact map_cbBody_all CB) rfl
  simp [hrev, h1, List.drop_left, List.reverse_reverse, map_parse_body, map_parse_comp, hD, hCB]

/-- C6 (amended): for every task record whose title, description lines and
checkbox texts contain no newline, and whose description lines are not
themselves in the rendered checkbox-line format, the reference decoder
recovers the title, the description lines in exact order and content
(including embedded blank lines), and the checkbox (text, checked) pairs in
exact order from the buildCardContent body string — so buildCardContent is
injective on those components of such records (the assignee and deck path
are not encoded in the body at all). -/
theorem buildCardContent_roundtrip (task : ParsedTask)
    (htitle : noNL task.title = true)
    (hdesc : task.description.all noNL = true)
    (hcbt : task.checkboxes.all (fun cb => noNL cb.1) = true)
    (hdcb : task.description.all (fun d => !(isCbLineStr d)) = true)
    (hne : jsTrim task.title ≠ "") :
    decodeCardContent (buildCardContent task) =
      some (task.title, task.description, task.checkboxes) := by
  obtain ⟨T, A, D, CB, DP⟩ := task
  dsimp only at htitle hdesc hcbt hdcb hne ⊢
  cases D with
  | nil =>
    cases CB with
    | nil =>
      apply decode_single
      show splitNL T = [T]
      unfold splitNL splitCh
      rw [splitChAux_noSep '\n' T.data htitle]
      rfl
    | cons cb cbs =>
      apply decode_cbSection _ _ (cb :: cbs) (by simp)
      have hb : (buildCardContent ⟨T, A, [], cb :: cbs, DP⟩).data =
          T.data ++ '\n' :: cbChars (cb :: cbs) := by
        show (((cb :: cbs).foldl (fun a x => a ++ cbLine x) (T ++ "\n"))).data = _
        rw [foldl_cbLine_data]
        show (T.data ++ ['\n']) ++ cbChars (cb :: cbs) = _
        simp
      show splitNL (buildCardContent ⟨T, A, [], cb :: cbs, DP⟩) = _
      unfold splitNL splitCh
      rw [hb, splitChAux_sep '\n' T.data _ htitle, splitCbChars _ hcbt]
      simp only [List.map_cons, map_mk_body]
  | cons d ds =>
    cases CB with
    | nil =>
      apply decode_descOnly _ _ (d :: ds) _ hdcb
      have hb : (buildCardContent ⟨T, A, d :: ds, [], DP⟩).data =
          T.data ++ '\n' :: '\n' :: (joinNL (d :: ds)).data := by
        show ((T ++ "\n\n" ++ joinNL (d :: ds))).data = _
        simp [strData_append, List.append_assoc]
      show splitNL (buildCardContent ⟨T, A, d :: ds, [], DP⟩) = _
      unfold splitNL splitCh
      rw [hb, splitChAux_sep '\n' T.data _ htitle, splitChAux_cons_sep,
        splitEnd (d :: ds) hdesc (by simp)]
      simp only [List.map_cons, map_mk_data]
    | cons cb cbs =>
      apply decode_full _ _ (d :: ds) (cb :: cbs) (by simp) (by simp) hdcb
      have hb : (buildCardContent ⟨T, A, d :: ds, cb :: cbs, DP⟩).data =
          T.data ++ '\n' :: '\n' ::
            ((joinNL (d :: ds)).data ++ '\n' :: cbChars (cb :: cbs)) := by
        show (((cb :: cbs).foldl (fun a x => a ++ cbLine x)
            ((T ++ "\n\n" ++ joinNL (d :: ds)) ++ "\n"))).data = _
        rw [foldl_cbLine_data]
        show (((T.data ++ ['\n', '\n']) ++ (joinNL (d :: ds)).data) ++ ['\n'])
            ++ cbChars (cb :: cbs) = _
        simp [List.append_assoc]
      show splitNL (buildCardContent ⟨T, A, d :: ds, cb :: cbs, DP⟩) = _
      unfold splitNL splitCh
      rw [hb, splitChAux_sep '\n' T.data _ htitle, splitChAux_cons_sep,
        splitMid (d :: ds) hdesc (by simp) _, splitCbChars _ hcbt]
      simp only [List.map_cons, List.map_append, map_mk_data, map_mk_body]

/-- C6, witness at a concrete task with blank description lines and mixed
checkbox states. -/
theorem buildCardContent_roundtrip_witness :
    noNL "Task A" = true ∧
    decodeCardContent (buildCardContent
        ⟨"Task A", some "Bob", ["d1", "", "d2"], [("c1", true), ("c2", false)], none⟩) =
      some ("Task A", ["d1", "", "d2"], [("c1", true), ("c2", false)]) := by
  refine ⟨by decide, ?_⟩
  exact buildCardContent_roundtrip
    ⟨"Task A", some "Bob", ["d1", "", "d2"], [("c1", true), ("c2", false)], none⟩
    (by decide) (by decide) (by decide) (by decide) (by decide)

/-- C6, counterexample: two different task records with non-empty trimmed
titles produce the same body string — a title containing an embedded blank
line collides with a title plus a description line — so buildCardContent is
not injective on all records with non-empty trimmed titles. -/
theorem buildCardContent_roundtrip_cex :
    buildCardContent taskC6a = buildCardContent taskC6b ∧
    taskC6a ≠ taskC6b ∧
    jsTrim taskC6a.title ≠ "" ∧ jsTrim taskC6b.title ≠ "" := by
  decide

end SlackCodecks
